import Mathlib

/-
Verification of the sensitive-field masking engine (`src/security.py`,
class `DataMasker`) against its natural-language specification.

The embedding is shallow: Python strings are Lean `String` (worked on as
`List Char` to keep every operation structurally recursive and hence
kernel-reducible), Python's structured values (dict / list / scalar) are a
mutual inductive family `JVal` / `Fields` / `Items`, and the regular
expressions used by `DataMasker` are encoded as a small regex AST with a
backtracking matcher whose truthiness coincides with `re.match` (existence
of a matching prefix).  Machine-level caveats: `str.lower`, `\d`, `\s` are
modelled over ASCII, which covers every configured fragment, pattern and
test input of the repository.
-/

namespace MaskSpec

/-! Character and list helpers. -/

/-- The masking character. -/
def starChar : Char := '*'

/-- The e-mail separator character. -/
def atChar : Char := '@'

/-- Boolean prefix test on character lists (`l₁` is a prefix of `l₂`). -/
def prefixB : List Char → List Char → Bool
  | [], _ => true
  | _ :: _, [] => false
  | a :: as, b :: bs => a == b && prefixB as bs

/-- Boolean infix test on character lists, modelling Python's
`needle in hay` substring operator. -/
def infixB : List Char → List Char → Bool
  | n, [] => n.isEmpty
  | n, h :: t => prefixB n (h :: t) || infixB n t

/-- Python `needle in hay` on strings. -/
def substrB (needle hay : String) : Bool := infixB needle.data hay.data

/-- Python `str.lower`, modelled over ASCII via `Char.toLower`. -/
def lowerStr (s : String) : String := String.mk (s.data.map Char.toLower)

/-- Characters removed by `re.sub(r"[-\s]", "", value)`: the dash and the
ASCII whitespace matched by Python's `\s`. -/
def sepChar (c : Char) : Bool :=
  c = '-' || c.isWhitespace || c = Char.ofNat 11 || c = Char.ofNat 12

/-- Embeds `re.sub(r"[-\s]", "", value)`: drop every separator character. -/
def stripSeps (cs : List Char) : List Char := cs.filter fun c => !sepChar c

/-- Python slice `l[-n:]`: the last `n` elements (all of `l` when shorter). -/
def lastN (n : Nat) (l : List Char) : List Char := l.drop (l.length - n)

/-- Python `value.rsplit(sep, 1)` when `sep` occurs in `value`: splits at the
last occurrence of `sep`; `none` when `sep` does not occur. -/
def splitAtLast (sep : Char) : List Char → Option (List Char × List Char)
  | [] => none
  | c :: rest =>
    match splitAtLast sep rest with
    | some (l, r) => some (c :: l, r)
    | none => if c = sep then some ([], rest) else none

/-- Python `str.strip()` over ASCII whitespace. -/
def pyStrip (cs : List Char) : List Char :=
  ((cs.dropWhile Char.isWhitespace).reverse.dropWhile Char.isWhitespace).reverse

/-- Python `s.split(",")`, accumulator-based. -/
def splitCommaAux : List Char → List Char → List (List Char)
  | acc, [] => [acc.reverse]
  | acc, c :: rest =>
    if c = ',' then acc.reverse :: splitCommaAux [] rest
    else splitCommaAux (c :: acc) rest

/-- Embeds `Settings.masked_fields_list` (`src/config.py`):
`[f.strip().lower() for f in self.masked_fields.split(",")]`. -/
def masked_fields_list (s : String) : List String :=
  (splitCommaAux [] s.data).map fun f => String.mk ((pyStrip f).map Char.toLower)

/-! Regex engine.  `DataMasker` only ever uses `re.match(pattern, s)` as a
boolean gate, i.e. "does some prefix of `s` match `pattern`?".  The AST
below covers exactly the constructs of the four patterns in
`DataMasker.__init__`: character classes, concatenation, alternation
(for `X?`) and Kleene star of a class (for `X+`, `X{n,}`). -/

/-- Regex abstract syntax: empty word, character class, concatenation,
alternation, star of a character class. -/
inductive Rx where
  | eps : Rx
  | cls : (Char → Bool) → Rx
  | seq : Rx → Rx → Rx
  | alt : Rx → Rx → Rx
  | starCls : (Char → Bool) → Rx

/-- All suffixes reachable by consuming a (possibly empty) run of
characters satisfying `p`. -/
def starSuffixes (p : Char → Bool) : List Char → List (List Char)
  | [] => [[]]
  | c :: rest => (c :: rest) :: (if p c then starSuffixes p rest else [])

/-- Backtracking matcher: the list of suffixes remaining after matching
some prefix of the input against `r`. -/
def rxMatch : Rx → List Char → List (List Char)
  | .eps, s => [s]
  | .cls _, [] => []
  | .cls p, c :: rest => if p c then [rest] else []
  | .seq a b, s => (rxMatch a s).foldr (fun s1 acc => rxMatch b s1 ++ acc) []
  | .alt a b, s => rxMatch a s ++ rxMatch b s
  | .starCls p, s => starSuffixes p s

/-- Truthiness of Python `re.match(r, s)`: some prefix of `s` matches `r`. -/
def reMatch (r : Rx) (s : String) : Bool := !(rxMatch r s.data).isEmpty

/-- Concatenation of a list of regexes. -/
def Rx.cat : List Rx → Rx
  | [] => .eps
  | r :: rest => .seq r (Rx.cat rest)

/-- `X?`. -/
def Rx.quest (r : Rx) : Rx := .alt r .eps

/-- `X+` for a character class. -/
def plusC (p : Char → Bool) : Rx := .seq (.cls p) (.starCls p)

/-- `X{n}` for a character class. -/
def repC (p : Char → Bool) : Nat → Rx
  | 0 => .eps
  | n + 1 => .seq (.cls p) (repC p n)

/-- Python `\d` over ASCII. -/
def digitC (c : Char) : Bool := c.isDigit

/-- `[a-zA-Z]`. -/
def alphaC (c : Char) : Bool := c.isAlpha

/-- `[a-zA-Z0-9._%+-]`. -/
def emailLocalC (c : Char) : Bool :=
  c.isAlpha || c.isDigit || c = '.' || c = '_' || c = '%' || c = '+' || c = '-'

/-- `[a-zA-Z0-9.-]`. -/
def emailDomainC (c : Char) : Bool := c.isAlpha || c.isDigit || c = '.' || c = '-'

/-- Embeds the pattern `[a-zA-Z0-9._%+-]+@[a-zA-Z0-9.-]+\.[a-zA-Z]{2,}`
of `DataMasker.__init__`. -/
def emailRx : Rx :=
  Rx.cat [plusC emailLocalC, .cls (fun c => c = '@'), plusC emailDomainC,
    .cls (fun c => c = '.'), repC alphaC 2, .starCls alphaC]

/-- Embeds the pattern `\d{2,4}[-\s]?\d{3,4}[-\s]?\d{3,4}`. -/
def phoneRx : Rx :=
  Rx.cat [repC digitC 2, Rx.quest (.cls digitC), Rx.quest (.cls digitC),
    Rx.quest (.cls sepChar), repC digitC 3, Rx.quest (.cls digitC),
    Rx.quest (.cls sepChar), repC digitC 3, Rx.quest (.cls digitC)]

/-- Embeds the pattern `\d{4}[-\s]?\d{4}[-\s]?\d{4}[-\s]?\d{4}`. -/
def creditCardRx : Rx :=
  Rx.cat [repC digitC 4, Rx.quest (.cls sepChar), repC digitC 4,
    Rx.quest (.cls sepChar), repC digitC 4, Rx.quest (.cls sepChar), repC digitC 4]

/-- Embeds the pattern `\d{3}[-\s]?\d{2}[-\s]?\d{4}`. -/
def ssnRx : Rx :=
  Rx.cat [repC digitC 3, Rx.quest (.cls sepChar), repC digitC 2,
    Rx.quest (.cls sepChar), repC digitC 4]

example : reMatch emailRx "zhang@company.com" = true := by decide
example : reMatch emailRx "hello" = false := by decide
example : reMatch phoneRx "0912345678" = true := by decide
example : reMatch ssnRx "0912345678" = true := by decide

/-! Redaction strategies (`DataMasker._mask_email`, `_mask_phone`,
`_mask_credit_card`, `_mask_ssn`, `_mask_generic`). -/

/-- Embeds `DataMasker._mask_email`.  `value.rsplit("@", 1)` is
`splitAtLast atChar`; under the guard `2 < localPart.length`,
`local[0]` is `take 1` and `local[-1]` is `drop (length - 1)`. -/
def mask_email (value : String) : String :=
  match splitAtLast atChar value.data with
  | some (localPart, domain) =>
    let masked_local :=
      if 2 < localPart.length then
        localPart.take 1 ++ List.replicate (localPart.length - 2) starChar ++
          localPart.drop (localPart.length - 1)
      else
        List.replicate localPart.length starChar
    String.mk (masked_local ++ atChar :: domain)
  | none => value

/-- Embeds `DataMasker._mask_phone`. -/
def mask_phone (value : String) : String :=
  let digits := stripSeps value.data
  if 4 ≤ digits.length then
    String.mk (digits.take 2 ++ List.replicate (digits.length - 4) starChar ++ lastN 2 digits)
  else
    String.mk (List.replicate digits.length starChar)

/-- Embeds `DataMasker._mask_credit_card`. -/
def mask_credit_card (value : String) : String :=
  let digits := stripSeps value.data
  if 4 ≤ digits.length then
    String.mk (List.replicate (digits.length - 4) starChar ++ lastN 4 digits)
  else
    String.mk (List.replicate digits.length starChar)

/-- Embeds `DataMasker._mask_ssn`. -/
def mask_ssn (value : String) : String :=
  String.mk ("***-**-".data ++ lastN 4 (stripSeps value.data))

/-- Embeds `DataMasker._mask_generic`. -/
def mask_generic (value : String) : String :=
  let cs := value.data
  if cs.length ≤ 2 then
    String.mk (List.replicate cs.length starChar)
  else
    String.mk (cs.take 1 ++ List.replicate (cs.length - 2) starChar ++ cs.drop (cs.length - 1))

example : mask_email "zhang@company.com" = "z***g@company.com" := by decide
example : mask_phone "0912-345-678" = "09******78" := by decide
example : mask_credit_card "1234-5678-9012-3456" = "************3456" := by decide
example : mask_ssn "123-45-6789" = "***-**-6789" := by decide
example : mask_generic "Wang" = "W**g" := by decide

/-! The structured-value data model: Python scalars, dicts and lists as a
mutual inductive family.  An ordered mapping is a sequence of key/value
pairs (`Fields`), which preserves both key set and key order. -/

/-- Python scalar values reaching the masker: strings, ints, bools, `None`. -/
inductive Scalar where
  | str : String → Scalar
  | int : Int → Scalar
  | bool : Bool → Scalar
  | null : Scalar
deriving DecidableEq, Repr

mutual
/-- A structured value: scalar, ordered mapping or sequence. -/
inductive JVal where
  | scalar : Scalar → JVal
  | obj : Fields → JVal
  | arr : Items → JVal
deriving DecidableEq

/-- The entries of an ordered mapping, in insertion order. -/
inductive Fields where
  | nil : Fields
  | cons : String → JVal → Fields → Fields
deriving DecidableEq

/-- The elements of a sequence, in order. -/
inductive Items where
  | nil : Items
  | cons : JVal → Items → Items
deriving DecidableEq
end

/-! Python stringification (`str(value)`), needed because `mask_value`
calls `str` on every value it masks.  `str` of a string is the string
itself; `str` of any container is its `repr`, which quotes inner strings.
The model covers CPython's `repr` for strings of printable characters
without quote or backslash subtleties beyond quote choice and escaping. -/

/-- CPython `repr` of a string: single-quoted unless the string contains a
single quote and no double quote; backslashes and the chosen quote are
escaped. -/
def reprPyStr (s : String) : String :=
  let bslash : Char := Char.ofNat 92
  let squote : Char := Char.ofNat 39
  let dquote : Char := Char.ofNat 34
  let q := if s.data.contains squote && !(s.data.contains dquote) then dquote else squote
  let esc := s.data.foldr
    (fun c acc => (if c = q || c = bslash then [bslash, c] else [c]) ++ acc) []
  String.mk (q :: esc ++ [q])

/-- CPython `repr` of a scalar. -/
def reprScalar : Scalar → String
  | .str s => reprPyStr s
  | .int n => toString n
  | .bool b => if b then "True" else "False"
  | .null => "None"

mutual
/-- CPython `repr` of a structured value. -/
def pyReprV : JVal → String
  | .scalar sc => reprScalar sc
  | .obj fs => "\x7b" ++ pyReprD fs ++ "\x7d"
  | .arr its => "[" ++ pyReprL its ++ "]"

/-- CPython `repr` of dict entries, comma-separated. -/
def pyReprD : Fields → String
  | .nil => ""
  | .cons k v .nil => reprPyStr k ++ ": " ++ pyReprV v
  | .cons k v rest => reprPyStr k ++ ": " ++ pyReprV v ++ ", " ++ pyReprD rest

/-- CPython `repr` of list elements, comma-separated. -/
def pyReprL : Items → String
  | .nil => ""
  | .cons v .nil => pyReprV v
  | .cons v rest => pyReprV v ++ ", " ++ pyReprL rest
end

/-- Python `str(value)`: identity on strings, `repr` otherwise. -/
def pyStr : JVal → String
  | .scalar (.str s) => s
  | v => pyReprV v

/-! The masker (`DataMasker`).  The pattern table `self.patterns` is a
fixed dict built in `__init__`; Python dicts preserve insertion order, so
it is a fixed list here.  Configuration is the field-fragment list and the
`enabled` flag. -/

/-- The configurable state of a `DataMasker` instance. -/
structure Masker where
  masked_fields : List String
  enabled : Bool

/-- Embeds the `should_mask` computation of `DataMasker.mask_value`:
`any(masked in field_lower for masked in self.masked_fields)`. -/
def should_mask (m : Masker) (field_lower : String) : Bool :=
  m.masked_fields.any fun masked => substrB masked field_lower

/-- Embeds `self.patterns` of `DataMasker.__init__`, in declaration
order: email, phone, credit_card, ssn. -/
def patternsList : List (String × Rx × (String → String)) :=
  [("email", emailRx, mask_email), ("phone", phoneRx, mask_phone),
   ("credit_card", creditCardRx, mask_credit_card), ("ssn", ssnRx, mask_ssn)]

/-- Embeds the rule loop of `DataMasker.mask_value`: first rule whose name
is a substring of the lowercased field name and whose pattern
prefix-matches the stringified value. -/
def findRule (field_lower str_value : String) :
    List (String × Rx × (String → String)) → Option (String → String)
  | [] => none
  | (pattern_name, pat, mask_func) :: rest =>
    if substrB pattern_name field_lower then
      if reMatch pat str_value then some mask_func
      else findRule field_lower str_value rest
    else findRule field_lower str_value rest

/-- Python `value is None`. -/
def isNull : JVal → Bool
  | .scalar .null => true
  | _ => false

/-- Embeds `DataMasker.mask_value`. -/
def mask_value (m : Masker) (field_name : String) (value : JVal) : JVal :=
  if !m.enabled || isNull value then value
  else
    let field_lower := lowerStr field_name
    if !(should_mask m field_lower) then value
    else
      let str_value := pyStr value
      match findRule field_lower str_value patternsList with
      | some mask_func => .scalar (.str (mask_func str_value))
      | none => .scalar (.str (mask_generic str_value))

mutual
/-- Embeds `DataMasker.mask_dict`: dict values recurse, list values map
elementwise (dict elements recurse, other elements go through
`mask_value` under the outer key), all other values go through
`mask_value`. -/
def mask_dict (m : Masker) : Fields → Fields
  | .nil => .nil
  | .cons k v rest => .cons k (maskEntryVal m k v) (mask_dict m rest)

/-- The per-entry dispatch of `DataMasker.mask_dict`. -/
def maskEntryVal (m : Masker) (k : String) : JVal → JVal
  | .obj fs => .obj (mask_dict m fs)
  | .arr its => .arr (maskItems m k its)
  | .scalar sc => mask_value m k (.scalar sc)

/-- The list comprehension of `DataMasker.mask_dict`. -/
def maskItems (m : Masker) (k : String) : Items → Items
  | .nil => .nil
  | .cons item rest => .cons (maskItem m k item) (maskItems m k rest)

/-- The comprehension body `mask_dict(item) if isinstance(item, dict) else
mask_value(key, item)`: non-dict elements — scalars and nested lists —
go through `mask_value` under the outer key. -/
def maskItem (m : Masker) (k : String) : JVal → JVal
  | .obj fs => .obj (mask_dict m fs)
  | .scalar sc => mask_value m k (.scalar sc)
  | .arr xs => mask_value m k (.arr xs)
end

/-- The process-default masker: `Settings.enable_data_masking = True` and
`Settings.masked_fields = "email,phone,ssn,credit_card,password"`
(`src/config.py`), split by `masked_fields_list`. -/
def defaultMasker : Masker :=
  { masked_fields := masked_fields_list "email,phone,ssn,credit_card,password",
    enabled := true }

example : defaultMasker.masked_fields = ["email", "phone", "ssn", "credit_card", "password"] := by
  decide

example :
    mask_dict defaultMasker (.cons "email" (.scalar (.str "zhang@company.com")) .nil) =
      .cons "email" (.scalar (.str "z***g@company.com")) .nil := by decide

example :
    mask_dict defaultMasker (.cons "name" (.scalar (.str "Wang")) .nil) =
      .cons "name" (.scalar (.str "Wang")) .nil := by decide

example :
    mask_dict defaultMasker
      (.cons "email" (.arr (.cons (.arr (.cons (.scalar (.str "a@b.co")) .nil)) .nil)) .nil) =
      .cons "email" (.arr (.cons (.scalar (.str "[********]")) .nil)) .nil := by decide

/-! Correctness of the boolean string predicates. -/

theorem prefixB_iff : ∀ n h : List Char, prefixB n h = true ↔ n <+: h
  | [], _ => by simp [prefixB]
  | _ :: _, [] => by simp [prefixB]
  | a :: as, b :: bs => by
    simp only [prefixB, Bool.and_eq_true, beq_iff_eq, List.cons_prefix_cons]
    exact and_congr Iff.rfl (prefixB_iff as bs)

theorem infixB_iff : ∀ n h : List Char, infixB n h = true ↔ n <:+: h
  | n, [] => by
    simp only [infixB, List.isEmpty_iff]
    constructor
    · rintro rfl; exact List.infix_rfl
    · intro h; simpa using List.eq_nil_of_infix_nil h
  | n, b :: bs => by
    simp only [infixB, Bool.or_eq_true, List.infix_cons_iff]
    exact or_congr (prefixB_iff n (b :: bs)) (infixB_iff n bs)

/-- Python substring containment agrees with `List.IsInfix` on the
character lists. -/
theorem substrB_iff (needle hay : String) :
    substrB needle hay = true ↔ needle.data <:+: hay.data :=
  infixB_iff needle.data hay.data

/-! Case analysis of `mask_value`. -/

/-- `mask_value` returns its input unchanged when masking is disabled, the
value is `None`, or no fragment occurs in the lowercased field name. -/
theorem mask_value_of_not_masked (m : Masker) (k : String) (v : JVal)
    (h : m.enabled = false ∨ isNull v = true ∨ should_mask m (lowerStr k) = false) :
    mask_value m k v = v := by
  unfold mask_value
  rcases h with h | h | h
  · simp [h]
  · simp [h]
  · simp [h, ite_self]

/-- `mask_value` either passes its input through or replaces it by a
string scalar. -/
theorem mask_value_cases (m : Masker) (k : String) (v : JVal) :
    mask_value m k v = v ∨ ∃ t, mask_value m k v = JVal.scalar (.str t) := by
  unfold mask_value
  by_cases h1 : (!m.enabled || isNull v) = true
  · left; simp [h1]
  · by_cases h2 : should_mask m (lowerStr k) = true
    · cases hf : findRule (lowerStr k) (pyStr v) patternsList with
      | none => right; exact ⟨mask_generic (pyStr v), by simp [h1, h2, hf]⟩
      | some f => right; exact ⟨f (pyStr v), by simp [h1, h2, hf]⟩
    · left; simp [h1, h2]

/-- The rule loop is the first match, in declaration order, of the
combined name-fragment/content-pattern test. -/
theorem findRule_eq_find (fl sv : String) :
    ∀ l : List (String × Rx × (String → String)),
      findRule fl sv l =
        (l.find? fun r => substrB r.1 fl && reMatch r.2.1 sv).map fun r => r.2.2
  | [] => rfl
  | (n, p, f) :: rest => by
    by_cases h1 : substrB n fl = true
    · by_cases h2 : reMatch p sv = true
      · simp [findRule, h1, h2, List.find?_cons]
      · simp [findRule, h1, h2, List.find?_cons, findRule_eq_find fl sv rest]
    · simp [findRule, h1, List.find?_cons, findRule_eq_find fl sv rest]

/-! Deep identity lemmas for the traversal. -/

mutual

theorem mask_dict_congr_id (m : Masker) (hmv : ∀ k v, mask_value m k v = v) :
    ∀ d : Fields, mask_dict m d = d
  | .nil => rfl
  | .cons k v rest => by
    rw [mask_dict, maskEntryVal_congr_id m hmv k v, mask_dict_congr_id m hmv rest]

theorem maskEntryVal_congr_id (m : Masker) (hmv : ∀ k v, mask_value m k v = v) (k : String) :
    ∀ v : JVal, maskEntryVal m k v = v
  | .scalar sc => by rw [maskEntryVal]; exact hmv k (.scalar sc)
  | .obj fs => by rw [maskEntryVal, mask_dict_congr_id m hmv fs]
  | .arr its => by rw [maskEntryVal, maskItems_congr_id m hmv k its]

theorem maskItems_congr_id (m : Masker) (hmv : ∀ k v, mask_value m k v = v) (k : String) :
    ∀ its : Items, maskItems m k its = its
  | .nil => rfl
  | .cons item rest => by
    rw [maskItems, maskItem_congr_id m hmv k item, maskItems_congr_id m hmv k rest]

theorem maskItem_congr_id (m : Masker) (hmv : ∀ k v, mask_value m k v = v) (k : String) :
    ∀ v : JVal, maskItem m k v = v
  | .scalar sc => by rw [maskItem]; exact hmv k (.scalar sc)
  | .obj fs => by rw [maskItem, mask_dict_congr_id m hmv fs]
  | .arr xs => by rw [maskItem]; exact hmv k (.arr xs)

end

/-! A deep predicate on the keys of a structure: `keysOKD p d` holds when
every key under which `mask_value` would be consulted — scalars and
non-dict list elements are judged under their enclosing key — satisfies
`p`.  Keys of nested dicts are judged on their own, matching the
traversal. -/

mutual

def keysOKD (p : String → Bool) : Fields → Bool
  | .nil => true
  | .cons k v rest => keysOKV p k v && keysOKD p rest

def keysOKV (p : String → Bool) (k : String) : JVal → Bool
  | .scalar _ => p k
  | .obj fs => keysOKD p fs
  | .arr its => keysOKL p k its

def keysOKL (p : String → Bool) (k : String) : Items → Bool
  | .nil => true
  | .cons (.obj fs) rest => keysOKD p fs && keysOKL p k rest
  | .cons (.scalar _) rest => p k && keysOKL p k rest
  | .cons (.arr _) rest => p k && keysOKL p k rest

end

/-! Deep identity on structures all of whose consulted keys satisfy a
predicate `p` under which `mask_value` is the identity. -/

mutual

theorem mask_dict_id_of_keysOK (m : Masker) (p : String → Bool)
    (hp : ∀ k v, p k = true → mask_value m k v = v) :
    ∀ d : Fields, keysOKD p d = true → mask_dict m d = d
  | .nil, _ => rfl
  | .cons k v rest, h => by
    simp only [keysOKD, Bool.and_eq_true] at h
    rw [mask_dict, maskEntryVal_id_of_keysOK m p hp k v h.1,
      mask_dict_id_of_keysOK m p hp rest h.2]

theorem maskEntryVal_id_of_keysOK (m : Masker) (p : String → Bool)
    (hp : ∀ k v, p k = true → mask_value m k v = v) (k : String) :
    ∀ v : JVal, keysOKV p k v = true → maskEntryVal m k v = v
  | .scalar sc, h => by
    rw [maskEntryVal]
    exact hp k (.scalar sc) (by simpa [keysOKV] using h)
  | .obj fs, h => by
    rw [maskEntryVal, mask_dict_id_of_keysOK m p hp fs (by simpa [keysOKV] using h)]
  | .arr its, h => by
    rw [maskEntryVal, maskItems_id_of_keysOK m p hp k its (by simpa [keysOKV] using h)]

theorem maskItems_id_of_keysOK (m : Masker) (p : String → Bool)
    (hp : ∀ k v, p k = true → mask_value m k v = v) (k : String) :
    ∀ its : Items, keysOKL p k its = true → maskItems m k its = its
  | .nil, _ => rfl
  | .cons (.scalar sc) rest, h => by
    simp only [keysOKL, Bool.and_eq_true] at h
    rw [maskItems, maskItem, hp k (.scalar sc) h.1,
      maskItems_id_of_keysOK m p hp k rest h.2]
  | .cons (.obj fs) rest, h => by
    simp only [keysOKL, Bool.and_eq_true] at h
    rw [maskItems, maskItem, mask_dict_id_of_keysOK m p hp fs h.1,
      maskItems_id_of_keysOK m p hp k rest h.2]
  | .cons (.arr xs) rest, h => by
    simp only [keysOKL, Bool.and_eq_true] at h
    rw [maskItems, maskItem, hp k (.arr xs) h.1,
      maskItems_id_of_keysOK m p hp k rest h.2]

end

/-! Shape similarity: the formalisation of the spec's shape-preservation
property.  `simShapeD d d2` holds when `d2` has the same keys in the same
order as `d`, every sequence keeps its length and order, and every scalar
leaf is either unchanged or replaced by a string scalar. -/

/-- Tests whether a scalar is a string. -/
def isStrScalar : Scalar → Bool
  | .str _ => true
  | _ => false

mutual

def simShapeD : Fields → Fields → Bool
  | .nil, .nil => true
  | .cons k v r, .cons k2 v2 r2 => decide (k = k2) && simShapeV v v2 && simShapeD r r2
  | _, _ => false

def simShapeV : JVal → JVal → Bool
  | .scalar a, .scalar b => decide (a = b) || isStrScalar b
  | .obj fs, .obj gs => simShapeD fs gs
  | .arr xs, .arr ys => simShapeL xs ys
  | _, _ => false

def simShapeL : Items → Items → Bool
  | .nil, .nil => true
  | .cons v r, .cons v2 r2 => simShapeV v v2 && simShapeL r r2
  | _, _ => false

end

/-! Structures whose sequences contain no directly nested sequence.  On
such inputs the traversal never hands a sequence to `mask_value`, and the
shape is preserved. -/

mutual

def noNestedSeqD : Fields → Bool
  | .nil => true
  | .cons _ v rest => noNestedSeqV v && noNestedSeqD rest

def noNestedSeqV : JVal → Bool
  | .scalar _ => true
  | .obj fs => noNestedSeqD fs
  | .arr its => noNestedSeqL its

def noNestedSeqL : Items → Bool
  | .nil => true
  | .cons (.scalar _) rest => noNestedSeqL rest
  | .cons (.obj fs) rest => noNestedSeqD fs && noNestedSeqL rest
  | .cons (.arr _) _ => false

end

/-- A scalar and its `mask_value` image are always shape-similar. -/
theorem simShapeV_mask_value_scalar (m : Masker) (k : String) (sc : Scalar) :
    simShapeV (.scalar sc) (mask_value m k (.scalar sc)) = true := by
  rcases mask_value_cases m k (.scalar sc) with h | ⟨t, h⟩
  · rw [h]; simp [simShapeV]
  · rw [h]; simp [simShapeV, isStrScalar]

mutual

theorem simShapeD_mask_dict (m : Masker) :
    ∀ d : Fields, noNestedSeqD d = true → simShapeD d (mask_dict m d) = true
  | .nil, _ => rfl
  | .cons k v rest, h => by
    simp only [noNestedSeqD, Bool.and_eq_true] at h
    simp only [mask_dict, simShapeD, Bool.and_eq_true]
    exact ⟨⟨by simp, simShapeV_maskEntryVal m k v h.1⟩, simShapeD_mask_dict m rest h.2⟩

theorem simShapeV_maskEntryVal (m : Masker) (k : String) :
    ∀ v : JVal, noNestedSeqV v = true → simShapeV v (maskEntryVal m k v) = true
  | .scalar sc, _ => by
    rw [maskEntryVal]
    exact simShapeV_mask_value_scalar m k sc
  | .obj fs, h => by
    rw [maskEntryVal]
    exact simShapeD_mask_dict m fs (by simpa [noNestedSeqV] using h)
  | .arr its, h => by
    rw [maskEntryVal]
    exact simShapeL_maskItems m k its (by simpa [noNestedSeqV] using h)

theorem simShapeL_maskItems (m : Masker) (k : String) :
    ∀ its : Items, noNestedSeqL its = true → simShapeL its (maskItems m k its) = true
  | .nil, _ => rfl
  | .cons (.scalar sc) rest, h => by
    simp only [noNestedSeqL] at h
    simp only [maskItems, maskItem, simShapeL, Bool.and_eq_true]
    exact ⟨simShapeV_mask_value_scalar m k sc, simShapeL_maskItems m k rest h⟩
  | .cons (.obj fs) rest, h => by
    simp only [noNestedSeqL, Bool.and_eq_true] at h
    simp only [maskItems, maskItem, simShapeL, Bool.and_eq_true]
    exact ⟨simShapeD_mask_dict m fs h.1, simShapeL_maskItems m k rest h.2⟩
  | .cons (.arr xs) rest, h => by
    simp [noNestedSeqL] at h

end

/-! Totality (claim C9 machinery).  The only operations of the masking
core that can raise in Python are the scalar indexings `local[0]`,
`local[-1]` in `_mask_email` and `value[0]`, `value[-1]` in
`_mask_generic` (IndexError on an empty string); slices such as `[:2]`,
`[-4:]` never raise.  The `Opt` mirrors below model every such indexing
with `head?` / `getLast?`, propagating `none` like an exception; proving
them equal to `some` of the total functions shows the code never reaches
a raising state. -/

/-- Mirror of `_mask_email` with raising indexing made explicit:
`local[0]` is `head?`, `local[-1]` is `getLast?`. -/
def maskEmailOpt (value : String) : Option String :=
  match splitAtLast atChar value.data with
  | some (localPart, domain) =>
    if 2 < localPart.length then
      match localPart.head?, localPart.getLast? with
      | some c0, some c1 =>
        some (String.mk (c0 :: List.replicate (localPart.length - 2) starChar ++
          c1 :: atChar :: domain))
      | _, _ => none
    else some (String.mk (List.replicate localPart.length starChar ++ atChar :: domain))
  | none => some value

/-- Mirror of `_mask_generic` with raising indexing made explicit. -/
def maskGenericOpt (value : String) : Option String :=
  let cs := value.data
  if cs.length ≤ 2 then some (String.mk (List.replicate cs.length starChar))
  else
    match cs.head?, cs.getLast? with
    | some c0, some c1 =>
      some (String.mk (c0 :: List.replicate (cs.length - 2) starChar ++ [c1]))
    | _, _ => none

/-- Mirror of `_mask_phone`; all of its operations are non-raising
slices, so it is total as written. -/
def maskPhoneOpt (value : String) : Option String := some (mask_phone value)

/-- Mirror of `_mask_credit_card`; slices only, total as written. -/
def maskCreditCardOpt (value : String) : Option String := some (mask_credit_card value)

/-- Mirror of `_mask_ssn`; slices only, total as written. -/
def maskSsnOpt (value : String) : Option String := some (mask_ssn value)

/-- Mirror of `self.patterns` with the `Opt` strategies. -/
def patternsListOpt : List (String × Rx × (String → Option String)) :=
  [("email", emailRx, maskEmailOpt), ("phone", phoneRx, maskPhoneOpt),
   ("credit_card", creditCardRx, maskCreditCardOpt), ("ssn", ssnRx, maskSsnOpt)]

/-- Mirror of the rule loop over the `Opt` strategies. -/
def findRuleOpt (field_lower str_value : String) :
    List (String × Rx × (String → Option String)) → Option (String → Option String)
  | [] => none
  | (pattern_name, pat, mask_func) :: rest =>
    if substrB pattern_name field_lower then
      if reMatch pat str_value then some mask_func
      else findRuleOpt field_lower str_value rest
    else findRuleOpt field_lower str_value rest

/-- Mirror of `mask_value` threading possible errors. -/
def maskValueOpt (m : Masker) (field_name : String) (value : JVal) : Option JVal :=
  if !m.enabled || isNull value then some value
  else
    let field_lower := lowerStr field_name
    if !(should_mask m field_lower) then some value
    else
      let str_value := pyStr value
      match findRuleOpt field_lower str_value patternsListOpt with
      | some mask_func => (mask_func str_value).map fun s => JVal.scalar (.str s)
      | none => (maskGenericOpt str_value).map fun s => JVal.scalar (.str s)

mutual

/-- Mirror of `mask_dict` threading possible errors. -/
def maskDictOpt (m : Masker) : Fields → Option Fields
  | .nil => some .nil
  | .cons k v rest =>
    match maskEntryValOpt m k v with
    | none => none
    | some v2 =>
      match maskDictOpt m rest with
      | none => none
      | some rest2 => some (.cons k v2 rest2)

/-- Mirror of the per-entry dispatch. -/
def maskEntryValOpt (m : Masker) (k : String) : JVal → Option JVal
  | .obj fs => (maskDictOpt m fs).map JVal.obj
  | .arr its => (maskItemsOpt m k its).map JVal.arr
  | .scalar sc => maskValueOpt m k (.scalar sc)

/-- Mirror of the list comprehension. -/
def maskItemsOpt (m : Masker) (k : String) : Items → Option Items
  | .nil => some .nil
  | .cons item rest =>
    match maskItemOpt m k item with
    | none => none
    | some i2 =>
      match maskItemsOpt m k rest with
      | none => none
      | some rest2 => some (.cons i2 rest2)

/-- Mirror of the comprehension body. -/
def maskItemOpt (m : Masker) (k : String) : JVal → Option JVal
  | .obj fs => (maskDictOpt m fs).map JVal.obj
  | .scalar sc => maskValueOpt m k (.scalar sc)
  | .arr xs => maskValueOpt m k (.arr xs)

end

/-! Helper facts about first/last elements of nonempty lists. -/

theorem head_take_of_ne_nil : ∀ l : List Char, l ≠ [] → ∃ c, l.head? = some c ∧ l.take 1 = [c]
  | [], h => absurd rfl h
  | c :: _, _ => ⟨c, rfl, rfl⟩

theorem getLast_drop_of_ne_nil :
    ∀ l : List Char, l ≠ [] → ∃ c, l.getLast? = some c ∧ l.drop (l.length - 1) = [c]
  | [c], _ => ⟨c, rfl, rfl⟩
  | a :: b :: t, _ => by
    obtain ⟨c, h1, h2⟩ := getLast_drop_of_ne_nil (b :: t) (by simp)
    refine ⟨c, ?_, ?_⟩
    · simpa [List.getLast?_cons_cons] using h1
    · simpa using h2

/-! The `Opt` mirrors never return `none`. -/

theorem maskEmailOpt_eq (s : String) : maskEmailOpt s = some (mask_email s) := by
  unfold maskEmailOpt mask_email
  cases hsp : splitAtLast atChar s.data with
  | none => rfl
  | some pr =>
    obtain ⟨lp, dm⟩ := pr
    by_cases hl : 2 < lp.length
    · have hne : lp ≠ [] := by
        intro h
        rw [h] at hl
        simp at hl
      obtain ⟨c0, h0, ht⟩ := head_take_of_ne_nil lp hne
      obtain ⟨c1, h1, hd⟩ := getLast_drop_of_ne_nil lp hne
      simp [hl, h0, h1, ht, hd]
    · simp [hl]

theorem maskGenericOpt_eq (s : String) : maskGenericOpt s = some (mask_generic s) := by
  unfold maskGenericOpt mask_generic
  dsimp only
  split_ifs with hl
  · rfl
  · have hne : s.data ≠ [] := by
      intro h
      rw [h] at hl
      simp at hl
    obtain ⟨c0, h0, ht⟩ := head_take_of_ne_nil s.data hne
    obtain ⟨c1, h1, hd⟩ := getLast_drop_of_ne_nil s.data hne
    have hd2 : List.drop (s.length - 1) s.data = [c1] := hd
    simp [h0, h1, ht, hd, hd2, List.append_assoc]

/-- On the fixed pattern table, applying the selected `Opt` strategy (or
the `Opt` generic fallback) returns `some` of the total selection. -/
theorem findRule_opt_apply (fl sv : String) :
    (match findRuleOpt fl sv patternsListOpt with
     | some fo => fo sv
     | none => maskGenericOpt sv) =
      some (match findRule fl sv patternsList with
            | some f => f sv
            | none => mask_generic sv) := by
  simp only [patternsList, patternsListOpt, findRule, findRuleOpt]
  split_ifs <;>
    simp [maskEmailOpt_eq, maskPhoneOpt, maskCreditCardOpt, maskSsnOpt, maskGenericOpt_eq]

theorem maskValueOpt_eq (m : Masker) (k : String) (v : JVal) :
    maskValueOpt m k v = some (mask_value m k v) := by
  unfold maskValueOpt mask_value
  by_cases h1 : (!m.enabled || isNull v) = true
  · rw [if_pos h1, if_pos h1]
  · rw [if_neg h1, if_neg h1]
    by_cases h2 : (!(should_mask m (lowerStr k))) = true
    · rw [if_pos h2, if_pos h2]
    · rw [if_neg h2, if_neg h2]
      have hbr := findRule_opt_apply (lowerStr k) (pyStr v)
      rcases hfo : findRuleOpt (lowerStr k) (pyStr v) patternsListOpt with _ | fo <;>
        rcases hf : findRule (lowerStr k) (pyStr v) patternsList with _ | f <;>
        rw [hfo, hf] at hbr <;> simp [hfo, hf] <;> simpa using hbr

mutual

theorem maskDictOpt_eq (m : Masker) : ∀ d : Fields, maskDictOpt m d = some (mask_dict m d)
  | .nil => rfl
  | .cons k v rest => by
    simp only [maskDictOpt, mask_dict, maskEntryValOpt_eq m k v, maskDictOpt_eq m rest]

theorem maskEntryValOpt_eq (m : Masker) (k : String) :
    ∀ v : JVal, maskEntryValOpt m k v = some (maskEntryVal m k v)
  | .scalar sc => by
    simp only [maskEntryValOpt, maskEntryVal, maskValueOpt_eq m k (JVal.scalar sc)]
  | .obj fs => by
    simp only [maskEntryValOpt, maskEntryVal, maskDictOpt_eq m fs, Option.map_some']
  | .arr its => by
    simp only [maskEntryValOpt, maskEntryVal, maskItemsOpt_eq m k its, Option.map_some']

theorem maskItemsOpt_eq (m : Masker) (k : String) :
    ∀ its : Items, maskItemsOpt m k its = some (maskItems m k its)
  | .nil => rfl
  | .cons item rest => by
    simp only [maskItemsOpt, maskItems, maskItemOpt_eq m k item, maskItemsOpt_eq m k rest]

theorem maskItemOpt_eq (m : Masker) (k : String) :
    ∀ v : JVal, maskItemOpt m k v = some (maskItem m k v)
  | .scalar sc => by
    simp only [maskItemOpt, maskItem, maskValueOpt_eq m k (JVal.scalar sc)]
  | .obj fs => by
    simp only [maskItemOpt, maskItem, maskDictOpt_eq m fs, Option.map_some']
  | .arr xs => by
    simp only [maskItemOpt, maskItem, maskValueOpt_eq m k (JVal.arr xs)]

end

/-! Characterisation of `splitAtLast` as "split at the last occurrence". -/

theorem splitAtLast_none_iff (sep : Char) :
    ∀ l : List Char, splitAtLast sep l = none ↔ l.contains sep = false
  | [] => by simp [splitAtLast]
  | c :: rest => by
    have ih := splitAtLast_none_iff sep rest
    cases h : splitAtLast sep rest with
    | some pr =>
      have hrc : rest.contains sep = true := by
        rcases hc : rest.contains sep
        · rw [ih.2 hc] at h
          exact absurd h (by simp)
        · rfl
      have hmem : sep ∈ rest := by simpa using hrc
      simp [splitAtLast, h, List.contains_cons]
      exact fun _ => hmem
    | none =>
      have hc : rest.contains sep = false := ih.1 h
      have hmem : sep ∉ rest := by simpa using hc
      by_cases hcs : c = sep
      · simp [splitAtLast, h, hcs, List.contains_cons]
      · simp [splitAtLast, h, hcs, List.contains_cons, hmem, Ne.symm hcs]

theorem splitAtLast_some (sep : Char) :
    ∀ l a b : List Char, splitAtLast sep l = some (a, b) →
      l = a ++ sep :: b ∧ b.contains sep = false
  | [], a, b => by simp [splitAtLast]
  | c :: rest, a, b => by
    cases h : splitAtLast sep rest with
    | some pr =>
      obtain ⟨a2, b2⟩ := pr
      obtain ⟨ih1, ih2⟩ := splitAtLast_some sep rest a2 b2 h
      intro hcr
      simp only [splitAtLast, h, Option.some.injEq, Prod.mk.injEq] at hcr
      obtain ⟨rfl, rfl⟩ := hcr
      constructor
      · simp [ih1]
      · exact ih2
    | none =>
      intro hcr
      simp only [splitAtLast, h] at hcr
      by_cases hcs : c = sep
      · rw [if_pos hcs] at hcr
        simp only [Option.some.injEq, Prod.mk.injEq] at hcr
        obtain ⟨rfl, rfl⟩ := hcr
        exact ⟨by simp [hcs], (splitAtLast_none_iff sep rest).1 h⟩
      · rw [if_neg hcs] at hcr
        exact absurd hcr (by simp)

/-! Claim theorems. -/

/-- The C1 counterexample input: a sequence nested directly inside a
sequence under the sensitive key `email`. -/
def c1CexDict : Fields :=
  .cons "email" (.arr (.cons (.arr (.cons (.scalar (.str "a@b.co")) .nil)) .nil)) .nil

/-- C1 (refuted as stated): shape preservation fails on a sequence nested
directly inside a sequence under a sensitive key — `mask_dict` hands the
inner sequence to `mask_value`, which stringifies it and masks the
resulting string, so a non-scalar node of the input is replaced by a
string scalar and the inner sequence disappears from the output. -/
theorem mask_dict_shape_counterexample :
    simShapeD c1CexDict (mask_dict defaultMasker c1CexDict) = false ∧
    mask_dict defaultMasker c1CexDict =
      .cons "email" (.arr (.cons (.scalar (.str "[********]")) .nil)) .nil := by
  constructor <;> decide

/-- C1 (amended): for every masker and every record none of whose
sequences directly contains a sequence, `mask_dict` preserves the key set
and key order of every mapping and the length and element order of every
sequence; only scalar leaves change, and every changed leaf is a string. -/
theorem mask_dict_shape_preservation (m : Masker) (d : Fields)
    (h : noNestedSeqD d = true) : simShapeD d (mask_dict m d) = true :=
  simShapeD_mask_dict m d h

/-- Nested two-level record used to witness shape preservation. -/
def c1WitnessDict : Fields :=
  .cons "manager" (.obj (.cons "email" (.scalar (.str "li@co.com")) .nil))
    (.cons "reports"
      (.arr (.cons (.obj (.cons "email" (.scalar (.str "a@co.com")) .nil))
        (.cons (.obj (.cons "email" (.scalar (.str "b@co.com")) .nil)) .nil))) .nil)

/-- Witness for the amended C1 at a concrete nested record. -/
theorem mask_dict_shape_preservation_witness :
    noNestedSeqD c1WitnessDict = true ∧
    simShapeD c1WitnessDict (mask_dict defaultMasker c1WitnessDict) = true :=
  ⟨by decide, mask_dict_shape_preservation defaultMasker c1WitnessDict (by decide)⟩

/-- C2: when masking is enabled, the value is not `None` and the field is
sensitive, `mask_value` applies the strategy of the first rule — in the
fixed declaration order of the pattern table — whose name fragment is a
substring of the lowercased field name and whose content pattern
prefix-matches the stringified value, falling back to the generic
strategy when no rule satisfies both; in every case the result is a
string scalar, never the unmasked value. -/
theorem mask_value_first_rule_selection (m : Masker) (field_name : String) (value : JVal)
    (hen : m.enabled = true) (hnull : isNull value = false)
    (hsens : should_mask m (lowerStr field_name) = true) :
    mask_value m field_name value =
      .scalar (.str
        (((patternsList.find? fun r =>
            substrB r.1 (lowerStr field_name) && reMatch r.2.1 (pyStr value)).map
          fun r => r.2.2).getD mask_generic (pyStr value))) := by
  unfold mask_value
  dsimp only
  rw [if_neg (by simp [hen, hnull]), if_neg (by simp [hsens])]
  rw [findRule_eq_find (lowerStr field_name) (pyStr value) patternsList]
  cases hf : patternsList.find? fun r =>
      substrB r.1 (lowerStr field_name) && reMatch r.2.1 (pyStr value) with
  | none => simp [hf]
  | some r => simp [hf]

/-- Witness for C2 at a sensitive field whose value matches no content
pattern: the generic strategy is applied (content-gated fallback). -/
theorem mask_value_first_rule_selection_witness :
    mask_value defaultMasker "email" (JVal.scalar (.str "hello")) =
      .scalar (.str
        (((patternsList.find? fun r =>
            substrB r.1 (lowerStr "email") &&
              reMatch r.2.1 (pyStr (JVal.scalar (.str "hello")))).map
          fun r => r.2.2).getD mask_generic (pyStr (JVal.scalar (.str "hello"))))) :=
  mask_value_first_rule_selection defaultMasker "email" (JVal.scalar (.str "hello"))
    rfl rfl (by decide)

/-- C3: a field is treated as sensitive iff masking is enabled and some
configured fragment is a substring (not an exact match) of the lowercased
field name; a field whose name contains no fragment passes through
`mask_value` unchanged, a record all of whose consulted keys are
non-sensitive is returned unchanged at every nesting depth, and
`emailing_list_id` is sensitive under the default fragment `email`. -/
theorem field_sensitivity_substring (m : Masker) (field_name : String) (v : JVal) (d : Fields)
    (hd : keysOKD (fun k => !should_mask m (lowerStr k)) d = true) :
    ((m.enabled && should_mask m (lowerStr field_name)) = true ↔
      m.enabled = true ∧ ∃ f ∈ m.masked_fields, f.data <:+: (lowerStr field_name).data) ∧
    (should_mask m (lowerStr field_name) = false → mask_value m field_name v = v) ∧
    mask_dict m d = d ∧
    (defaultMasker.enabled && should_mask defaultMasker (lowerStr "emailing_list_id")) = true := by
  refine ⟨?_, ?_, ?_, by decide⟩
  · simp only [Bool.and_eq_true, should_mask, List.any_eq_true]
    constructor
    · rintro ⟨he, f, hf, hsub⟩
      exact ⟨he, f, hf, (substrB_iff f (lowerStr field_name)).1 hsub⟩
    · rintro ⟨he, f, hf, hsub⟩
      exact ⟨he, f, hf, (substrB_iff f (lowerStr field_name)).2 hsub⟩
  · intro h
    exact mask_value_of_not_masked m field_name v (Or.inr (Or.inr h))
  · exact mask_dict_id_of_keysOK m _
      (fun k v hk => mask_value_of_not_masked m k v (Or.inr (Or.inr (by simpa using hk)))) d hd

/-- Witness for C3: the spec's scenario 5 — `name` contains no default
fragment, so the record passes through unchanged. -/
theorem field_sensitivity_substring_witness :
    mask_dict defaultMasker (.cons "name" (.scalar (.str "Wang")) .nil) =
      .cons "name" (.scalar (.str "Wang")) .nil :=
  (field_sensitivity_substring defaultMasker "emailing_list_id" (.scalar .null)
    (.cons "name" (.scalar (.str "Wang")) .nil) (by decide)).2.2.1

/-- C4: with masking disabled, `mask_dict` is the identity up to deep
equality, for every input record. -/
theorem mask_dict_identity_disabled (m : Masker) (d : Fields) (h : m.enabled = false) :
    mask_dict m d = d :=
  mask_dict_congr_id m (fun k v => mask_value_of_not_masked m k v (Or.inl h)) d

/-- Witness for C4: a disabled masker leaves a sensitive record intact. -/
theorem mask_dict_identity_disabled_witness :
    mask_dict
        { masked_fields := masked_fields_list "email,phone,ssn,credit_card,password",
          enabled := false }
        (.cons "email" (.scalar (.str "zhang@company.com")) .nil) =
      .cons "email" (.scalar (.str "zhang@company.com")) .nil :=
  mask_dict_identity_disabled _ _ rfl

/-- C5: with an empty fragment list no field is ever sensitive — every
record passes through unchanged even when masking is enabled. -/
theorem mask_dict_identity_empty_fragments (m : Masker) (d : Fields)
    (h : m.masked_fields = []) : mask_dict m d = d :=
  mask_dict_congr_id m
    (fun k v => mask_value_of_not_masked m k v (Or.inr (Or.inr (by simp [should_mask, h])))) d

/-- Witness for C5: empty fragments with masking enabled leave an
e-mail-keyed record intact. -/
theorem mask_dict_identity_empty_fragments_witness :
    mask_dict { masked_fields := [], enabled := true }
        (.cons "email" (.scalar (.str "zhang@company.com")) .nil) =
      .cons "email" (.scalar (.str "zhang@company.com")) .nil :=
  mask_dict_identity_empty_fragments _ _ rfl

/-- C6: the e-mail strategy keeps the domain and the first and last
character of the local part (the part before the last `@`), replacing the
interior with `len-2` stars, masks the whole local part when its length
is at most 2, and returns inputs without `@` unchanged; in particular
`zhang@company.com` becomes `z***g@company.com`. -/
theorem mask_email_strategy (s : String) :
    (s.data.contains atChar = false → mask_email s = s) ∧
    (∀ lp dm : List Char, splitAtLast atChar s.data = some (lp, dm) →
      (s.data = lp ++ atChar :: dm ∧ dm.contains atChar = false) ∧
      (2 < lp.length →
        ∃ c0 c1, lp.head? = some c0 ∧ lp.getLast? = some c1 ∧
          mask_email s =
            String.mk (c0 :: List.replicate (lp.length - 2) starChar ++ c1 :: atChar :: dm)) ∧
      (lp.length ≤ 2 →
        mask_email s = String.mk (List.replicate lp.length starChar ++ atChar :: dm))) ∧
    mask_email "zhang@company.com" = "z***g@company.com" := by
  refine ⟨?_, ?_, by decide⟩
  · intro h
    unfold mask_email
    rw [(splitAtLast_none_iff atChar s.data).2 h]
  · intro lp dm hsp
    refine ⟨splitAtLast_some atChar s.data lp dm hsp, ?_, ?_⟩
    · intro hl
      have hne : lp ≠ [] := by
        intro hh
        rw [hh] at hl
        simp at hl
      obtain ⟨c0, h0, ht⟩ := head_take_of_ne_nil lp hne
      obtain ⟨c1, h1, hd⟩ := getLast_drop_of_ne_nil lp hne
      refine ⟨c0, c1, h0, h1, ?_⟩
      unfold mask_email
      rw [hsp]
      simp [hl, ht, hd, List.append_assoc]
    · intro hl
      unfold mask_email
      rw [hsp]
      have hnl : ¬(2 < lp.length) := by omega
      simp [hnl]

/-- Witness for C6: a 2-character string without `@` passes through, and
the concrete spec scenario holds. -/
theorem mask_email_strategy_witness :
    mask_email "xy" = "xy" ∧ mask_email "zhang@company.com" = "z***g@company.com" :=
  ⟨(mask_email_strategy "xy").1 (by decide), (mask_email_strategy "zhang@company.com").2.2⟩

/-- C7: the SSN strategy always produces the fixed shape `***-**-`
followed by the trailing (at most) four characters of the
separator-stripped input, independent of input length; in particular
`123-45-6789` becomes `***-**-6789`. -/
theorem mask_ssn_strategy :
    (∀ s : String, ∃ pre suf : List Char,
      stripSeps s.data = pre ++ suf ∧
      suf.length = min 4 (stripSeps s.data).length ∧
      mask_ssn s = "***-**-" ++ String.mk suf) ∧
    mask_ssn "123-45-6789" = "***-**-6789" := by
  refine ⟨fun s => ?_, by decide⟩
  refine ⟨(stripSeps s.data).take ((stripSeps s.data).length - 4),
    (stripSeps s.data).drop ((stripSeps s.data).length - 4), ?_, ?_, ?_⟩
  · exact (List.take_append_drop _ _).symm
  · rw [List.length_drop]
    omega
  · rfl

/-- C8: the generic strategy masks a string of length at most 2 to an
all-star string of the same length, and keeps the first and last
character of a string of length at least 3, starring the interior. -/
theorem mask_generic_strategy (s : String) :
    (s.length ≤ 2 → mask_generic s = String.mk (List.replicate s.length starChar)) ∧
    (3 ≤ s.length →
      ∃ c0 c1, s.data.head? = some c0 ∧ s.data.getLast? = some c1 ∧
        mask_generic s = String.mk (c0 :: List.replicate (s.length - 2) starChar ++ [c1])) := by
  constructor
  · intro h
    unfold mask_generic
    dsimp only
    split_ifs with hc
    · rfl
    · exact absurd (show s.data.length ≤ 2 from h) hc
  · intro h
    have hlen : s.data.length = s.length := rfl
    have hne : s.data ≠ [] := by
      intro hh
      rw [hh] at hlen
      simp at hlen
      omega
    obtain ⟨c0, h0, ht⟩ := head_take_of_ne_nil s.data hne
    obtain ⟨c1, h1, hd⟩ := getLast_drop_of_ne_nil s.data hne
    have hd2 : List.drop (s.length - 1) s.data = [c1] := hd
    refine ⟨c0, c1, h0, h1, ?_⟩
    unfold mask_generic
    dsimp only
    split_ifs with hc
    · exact absurd hc (by omega)
    · simp [ht, hd, hd2, List.append_assoc]

/-- Witness for C8 at a 2-character and a 4-character string. -/
theorem mask_generic_strategy_witness :
    mask_generic "ab" = String.mk (List.replicate "ab".length starChar) ∧
    ∃ c0 c1, "abcd".data.head? = some c0 ∧ "abcd".data.getLast? = some c1 ∧
      mask_generic "abcd" = String.mk (c0 :: List.replicate ("abcd".length - 2) starChar ++ [c1]) :=
  ⟨(mask_generic_strategy "ab").1 (by decide), (mask_generic_strategy "abcd").2 (by decide)⟩

/-- C9: totality.  The `Opt` mirrors — in which every Python operation
that can raise (the scalar indexings of `_mask_email` and
`_mask_generic`) is modelled as `Option`-valued — return `some` of the
total result on every input: no strategy and no traversal entry point can
reach a raising state, and degenerate inputs take the documented
fallbacks. -/
theorem masking_total_non_throwing (m : Masker) (field_name s : String) (v : JVal) (d : Fields) :
    maskEmailOpt s = some (mask_email s) ∧
    maskPhoneOpt s = some (mask_phone s) ∧
    maskCreditCardOpt s = some (mask_credit_card s) ∧
    maskSsnOpt s = some (mask_ssn s) ∧
    maskGenericOpt s = some (mask_generic s) ∧
    maskValueOpt m field_name v = some (mask_value m field_name v) ∧
    maskDictOpt m d = some (mask_dict m d) :=
  ⟨maskEmailOpt_eq s, rfl, rfl, rfl, maskGenericOpt_eq s,
    maskValueOpt_eq m field_name v, maskDictOpt_eq m d⟩

/-- C10: the rule table order is email, phone, credit_card, ssn; for the
field `ssn_phone` with value `0912345678` — sensitive by both the `ssn`
and the `phone` fragment, and prefix-matching both the phone and the ssn
pattern — the earliest matching rule (phone) supplies the strategy, whose
output differs from the ssn strategy's. -/
theorem pattern_order_tie_break :
    patternsList.map (fun r => r.1) = ["email", "phone", "credit_card", "ssn"] ∧
    substrB "phone" (lowerStr "ssn_phone") = true ∧
    substrB "ssn" (lowerStr "ssn_phone") = true ∧
    reMatch phoneRx "0912345678" = true ∧
    reMatch ssnRx "0912345678" = true ∧
    mask_value defaultMasker "ssn_phone" (.scalar (.str "0912345678")) =
      .scalar (.str (mask_phone "0912345678")) ∧
    mask_phone "0912345678" = "09******78" ∧
    mask_ssn "0912345678" = "***-**-5678" ∧
    mask_phone "0912345678" ≠ mask_ssn "0912345678" :=
  ⟨rfl, by decide, by decide, by decide, by decide, by decide, by decide, by decide, by decide⟩

end MaskSpec
